import Mathlib

/-!
Verification of the NewsSnifferLast polling-dedup-forward pipeline.

This file gives a shallow embedding of the core of the repository:
the SQLite-backed `DatabaseManager` (database.py) and the
`TelegramNewsClient` channel-processing logic (telegram_client.py).

Modelling conventions:
* SQLite tables become Lean lists of row structures kept in rowid
  (insertion) order, together with a next-rowid counter.
  `INSERT OR REPLACE` on a table with a UNIQUE constraint is modelled
  exactly as SQLite executes it: delete every row conflicting on the
  unique key, then append a fresh row (fresh rowid, unspecified columns
  take their column defaults).  `INSERT OR REPLACE` on a table without
  an applicable unique constraint is a plain insert.
* Timestamps and dates are `Int` (an abstract instant); `CURRENT_TIMESTAMP`
  / `CURRENT_DATE` become explicit `now` / `today` parameters.
* The Telethon transport is abstracted by a `FetchResult` per channel
  (the delivered message sequence, a FloodWaitError with its wait
  seconds, or another retrieval error) and by a success oracle
  `fwd : String → Nat → Bool` for `forward_messages`.
* `asyncio.sleep` calls are recorded as events in a trace.
-/

/-- Row of the `processed_posts` table (database.py, init_database).
UNIQUE(channel_username, message_id); `processed_date` defaults to the
current timestamp, `id` is an autoincrement rowid. -/
structure PostRow where
  rowId : Nat
  channel : String
  messageId : Nat
  messageText : String
  postDate : Option Int
  processedDate : Int
  isPublished : Bool
  summary : Option String
deriving DecidableEq, Repr

/-- Row of the `channel_settings` table (database.py, init_database).
`channel_username` is UNIQUE; defaults: `last_message_id` 0,
`is_active` TRUE, `added_date` current timestamp. -/
structure ChannelRow where
  rowId : Nat
  channel : String
  lastMessageId : Nat
  isActive : Bool
  addedDate : Int
deriving DecidableEq, Repr

/-- Row of the `statistics` table (database.py, init_database).
Note: the schema declares NO unique constraint on `date`. -/
structure StatRow where
  rowId : Nat
  statDate : Int
  postsProcessed : Nat
  postsPublished : Nat
  postsFiltered : Nat
deriving DecidableEq, Repr

/-- The persistent store managed by `DatabaseManager`. -/
structure DB where
  posts : List PostRow
  channels : List ChannelRow
  stats : List StatRow
  nextPostId : Nat
  nextChannelId : Nat
  nextStatId : Nat
deriving DecidableEq, Repr

/-- The empty, freshly initialised database. -/
def emptyDB : DB := ⟨[], [], [], 1, 1, 1⟩

/-- Models `DatabaseManager.is_post_processed`: SELECT 1 FROM processed_posts
WHERE channel_username = ? AND message_id = ?. -/
def isPostProcessed (db : DB) (ch : String) (mid : Nat) : Bool :=
  db.posts.any (fun r => r.channel == ch && r.messageId == mid)

/-- Models `DatabaseManager.add_processed_post`: INSERT OR REPLACE INTO
processed_posts — the UNIQUE(channel_username, message_id) conflict row
is deleted and a fresh row (fresh rowid, processed_date = now) is
appended. -/
def addProcessedPost (db : DB) (ch : String) (mid : Nat) (txt : String)
    (postDate : Option Int) (summary : Option String) (isPublished : Bool)
    (now : Int) : DB :=
  { db with
    posts := db.posts.filter (fun r => !(r.channel == ch && r.messageId == mid))
      ++ [⟨db.nextPostId, ch, mid, txt, postDate, now, isPublished, summary⟩],
    nextPostId := db.nextPostId + 1 }

/-- Models `DatabaseManager.get_last_message_id`: SELECT last_message_id FROM
channel_settings WHERE channel_username = ?, defaulting to 0. -/
def getLastMessageId (db : DB) (ch : String) : Nat :=
  match db.channels.find? (fun r => r.channel == ch) with
  | some r => r.lastMessageId
  | none => 0

/-- Models `DatabaseManager.update_last_message_id`: INSERT OR REPLACE INTO
channel_settings (channel_username, last_message_id) VALUES (?, ?).
The REPLACE deletes the row conflicting on the UNIQUE channel_username
and inserts a fresh row in which the unsupplied columns revert to their
defaults: `is_active` TRUE and `added_date` the current timestamp. -/
def updateLastMessageId (db : DB) (ch : String) (mid : Nat) (now : Int) : DB :=
  { db with
    channels := db.channels.filter (fun r => !(r.channel == ch))
      ++ [⟨db.nextChannelId, ch, mid, true, now⟩],
    nextChannelId := db.nextChannelId + 1 }

/-- Models `DatabaseManager.add_channel`: INSERT OR IGNORE INTO
channel_settings (channel_username) VALUES (?). -/
def addChannel (db : DB) (ch : String) (now : Int) : DB :=
  if db.channels.any (fun r => r.channel == ch) then db
  else
    { db with
      channels := db.channels ++ [⟨db.nextChannelId, ch, 0, true, now⟩],
      nextChannelId := db.nextChannelId + 1 }

/-- Models `DatabaseManager.update_statistics`: INSERT OR REPLACE INTO
statistics (date, posts_processed, posts_published, posts_filtered)
VALUES (CURRENT_DATE, COALESCE((SELECT … WHERE date = CURRENT_DATE),0)+?, …).
Since the statistics table has no unique constraint on `date` (its only
constraint is the autoincrement primary key, which is not supplied),
the REPLACE clause never fires: every call appends a new row whose
counts are the first existing today-row's counts (0 if none) plus the
increments. -/
def updateStatistics (db : DB) (p pub f : Nat) (today : Int) : DB :=
  let base := db.stats.find? (fun r => r.statDate == today)
  { db with
    stats := db.stats ++
      [⟨db.nextStatId, today,
        (base.map (fun r => r.postsProcessed)).getD 0 + p,
        (base.map (fun r => r.postsPublished)).getD 0 + pub,
        (base.map (fun r => r.postsFiltered)).getD 0 + f⟩],
    nextStatId := db.nextStatId + 1 }

/-- A transport message (telethon `Message` as consumed by the core):
id, timestamp (`date`, nullable), text (nullable). -/
structure Message where
  id : Nat
  date : Option Int
  text : Option String
deriving DecidableEq, Repr

/-- Python `text.startswith('/')`: the first character is '/'. -/
def startsWithSlash (s : String) : Bool :=
  match s.data with
  | [] => false
  | c :: _ => c == '/'

/-- Python truthiness-plus-prefix test from get_channel_messages line 76:
`if message.text and not message.text.startswith('/')` — the text is
present, non-empty and does not begin with '/'. -/
def textOk (t : Option String) : Bool :=
  match t with
  | none => false
  | some s => !(s == "") && !(startsWithSlash s)

/-- Models `message.text or "[Медиа сообщение]"` (forward_message line 108):
Python `or` falls through on None or the empty string. -/
def textOrMedia (t : Option String) : String :=
  match t with
  | none => "[Медиа сообщение]"
  | some s => if s == "" then "[Медиа сообщение]" else s

/-- The message-selection predicate applied by the retrieval walk: the
timestamp is present and strictly after the boundary, and the text
passes `textOk`. -/
def candOk (b : Int) (m : Message) : Bool :=
  (match m.date with
   | some d => decide (d > b)
   | none => false) && textOk m.text

/-- The newest-first walk of get_channel_messages lines 73–81: keep a
message dated strictly after the boundary whose text passes `textOk`;
skip a message with no date; break at the first message dated at or
before the boundary. -/
def walkNew (b : Int) : List Message → List Message
  | [] => []
  | m :: rest =>
    match m.date with
    | some d =>
      if d > b then
        (if textOk m.text then m :: walkNew b rest else walkNew b rest)
      else []
    | none => walkNew b rest

/-- Outcome of one `iter_messages` retrieval for a channel: the
delivered newest-first sequence, a FloodWaitError carrying its wait
seconds, or another retrieval error. -/
inductive FetchResult where
  | ok : List Message → FetchResult
  | floodWait : Nat → FetchResult
  | err : FetchResult

/-- An `asyncio.sleep` occurrence, recorded in the trace: the
FloodWaitError sleep of `e.seconds` (line 88), the 1-second pause after
a successful forward (line 167), or the 2-second pause after a channel
(line 172). -/
inductive Event where
  | floodSleep : Nat → Event
  | forwardPause : Event
  | channelPause : Event
deriving DecidableEq, Repr

/-- Recogniser for the inter-channel 2-second pause event. -/
def isChannelPause : Event → Bool
  | Event.channelPause => true
  | _ => false

/-- In-memory state of `TelegramNewsClient`: the database, the run
boundary `start_time`, and the `self.stats` counters. -/
structure ClientState where
  db : DB
  startTime : Option Int
  statsProcessed : Nat
  statsForwarded : Nat
deriving Repr

/-- Models `TelegramNewsClient.get_channel_messages` (lines 62–92): with no
run boundary return the empty list without fetching; otherwise walk the
delivered batch; on FloodWaitError sleep the signalled seconds and
return the empty list; on any other retrieval error return the empty
list.  Returns the candidate list and the sleep trace. -/
def getChannelMessages (startTime : Option Int) (fetch : FetchResult) :
    List Message × List Event :=
  match startTime with
  | none => ([], [])
  | some b =>
    match fetch with
    | FetchResult.ok batch => (walkNew b batch, [])
    | FetchResult.floodWait s => ([], [Event.floodSleep s])
    | FetchResult.err => ([], [])

/-- Models `max(msg.id for msg in messages)` (process_all_channels line 156),
as a fold; agrees with the Python max on non-empty lists of Nat ids. -/
def maxIdOf (msgs : List Message) : Nat :=
  msgs.foldl (fun a m => max a m.id) 0

/-- Result of the per-channel forwarding loop: the final client state,
the count of successful forwards, the sleep trace, and the list of
(channel, message id) pairs on which forward_message was invoked. -/
structure LoopOut where
  state : ClientState
  fwdCount : Nat
  events : List Event
  attempts : List (String × Nat)

/-- The per-channel forwarding loop of process_all_channels lines
160–167: skip a message already recorded (is_post_processed);
otherwise invoke forward_message — on transport success the post is
recorded (add_processed_post with summary "Переслано", is_published
True), both `self.stats` counters are incremented and a 1-second pause
follows; on failure nothing is recorded. -/
def forwardLoop (fwd : String → Nat → Bool) (now : Int) (ch : String) :
    List Message → ClientState → LoopOut
  | [], st => ⟨st, 0, [], []⟩
  | m :: rest, st =>
    if isPostProcessed st.db ch m.id then
      forwardLoop fwd now ch rest st
    else if fwd ch m.id then
      let st1 : ClientState :=
        { st with
          db := addProcessedPost st.db ch m.id (textOrMedia m.text) m.date
            (some "Переслано") true now,
          statsProcessed := st.statsProcessed + 1,
          statsForwarded := st.statsForwarded + 1 }
      let r := forwardLoop fwd now ch rest st1
      ⟨r.state, r.fwdCount + 1, Event.forwardPause :: r.events, (ch, m.id) :: r.attempts⟩
    else
      let r := forwardLoop fwd now ch rest st
      ⟨r.state, r.fwdCount, r.events, (ch, m.id) :: r.attempts⟩

/-- Per-pass input for one source channel: its username, what the
transport does on this pass's retrieval, and whether an unexpected
exception strikes this channel's loop body (caught by the
`except` at line 174, which `continue`s to the next channel). -/
structure ChWork where
  name : String
  fetch : FetchResult
  crash : Bool

/-- Result of one channel's slot in the pass loop, and of the pass as
a whole: the final client state, the `results` counters, the sleep
trace and the forward attempts. -/
structure PassOut where
  state : ClientState
  processed : Nat
  forwarded : Nat
  events : List Event
  attempts : List (String × Nat)

/-- The body of the per-channel `for` loop of process_all_channels
lines 145–176 for one channel: retrieve candidates; if none,
`continue` (no inter-channel pause); otherwise write the watermark to
the maximum candidate id, run the forwarding loop, count the
candidates as processed, and take the 2-second inter-channel pause.
A crash is absorbed by the `except`/`continue`. -/
def processOneChannel (fwd : String → Nat → Bool) (now : Int)
    (st : ClientState) (w : ChWork) : PassOut :=
  if w.crash then ⟨st, 0, 0, [], []⟩
  else
    let fr := getChannelMessages st.startTime w.fetch
    if fr.1.isEmpty then ⟨st, 0, 0, fr.2, []⟩
    else
      let st1 : ClientState :=
        { st with db := updateLastMessageId st.db w.name (maxIdOf fr.1) now }
      let r := forwardLoop fwd now w.name fr.1 st1
      ⟨r.state, fr.1.length, r.fwdCount,
        fr.2 ++ r.events ++ [Event.channelPause], r.attempts⟩

/-- The `for channel_username in Config.SOURCE_CHANNELS` loop of
process_all_channels, accumulating the `results` dict, the trace and
the forward attempts. -/
def passLoop (fwd : String → Nat → Bool) (now : Int) :
    List ChWork → ClientState → PassOut
  | [], st => ⟨st, 0, 0, [], []⟩
  | w :: ws, st =>
    let r := processOneChannel fwd now st w
    let r2 := passLoop fwd now ws r.state
    ⟨r2.state, r.processed + r2.processed, r.forwarded + r2.forwarded,
      r.events ++ r2.events, r.attempts ++ r2.attempts⟩

/-- Models `TelegramNewsClient.process_all_channels` (lines 138–188): run the
channel loop, then write `self.stats` (posts_processed,
posts_forwarded, filtered = 0) into the statistics table and reset the
in-memory counters; return the accumulated `results`. -/
def processAllChannels (fwd : String → Nat → Bool) (now today : Int)
    (chans : List ChWork) (st : ClientState) : PassOut :=
  let r := passLoop fwd now chans st
  { r with
    state :=
      { r.state with
        db := updateStatistics r.state.db r.state.statsProcessed
          r.state.statsForwarded 0 today,
        statsProcessed := 0,
        statsForwarded := 0 } }

/-- Input for one whole pass in a multi-pass run. -/
structure PassIn where
  chans : List ChWork
  fwd : String → Nat → Bool
  now : Int
  today : Int

/-- A sequence of `process_all_channels` invocations on an evolving
client state; accumulates every forward attempt made. -/
def runPasses : List PassIn → ClientState → ClientState × List (String × Nat)
  | [], st => (st, [])
  | p :: ps, st =>
    let out := processAllChannels p.fwd p.now p.today p.chans st
    let r := runPasses ps out.state
    (r.1, out.attempts ++ r.2)

/-- Models `TelegramNewsClient.initialize` (lines 26–60): on authorization
failure return False leaving the state untouched; on success set the
run boundary `start_time` only if it is not yet set (lines 46–48), then
register every configured source channel (add_channel, INSERT OR
IGNORE) and return True. -/
def initClient (st : ClientState) (now : Int) (authOk : Bool)
    (srcChannels : List String) : ClientState × Bool :=
  if authOk then
    let st1 : ClientState :=
      match st.startTime with
      | none => { st with startTime := some now }
      | some _ => st
    ({ st1 with db := srcChannels.foldl (fun d c => addChannel d c now) st1.db }, true)
  else (st, false)

/-- A client state just after startup at boundary 0 over a fresh
database, used by concrete scenarios. -/
def st0 : ClientState := ⟨emptyDB, some 0, 0, 0⟩

/-- Forward oracle under which every transport forward succeeds. -/
def fwdTrue : String → Nat → Bool := fun _ _ => true

/-- Forward oracle under which every transport forward fails. -/
def fwdFalse : String → Nat → Bool := fun _ _ => false

/-- The §8 scenario batch for boundary T0 = 0:
[{id 105, time T0+5, "hi"}, {id 104, time T0+3, "/cmd"},
 {id 103, time T0-1, "old"}]. -/
def exampleBatch : List Message :=
  [⟨105, some 5, some "hi"⟩, ⟨104, some 3, some "/cmd"⟩, ⟨103, some (-1), some "old"⟩]

/-- A client state holding one processed record ("a", 5), for witnesses. -/
def stRec : ClientState := ⟨addProcessedPost emptyDB "a" 5 "x" none none true 0, some 0, 0, 0⟩

/-- A pass input in which message 5 of channel "a" is delivered again. -/
def passA : PassIn := ⟨[⟨"a", FetchResult.ok [⟨5, some 1, some "hi"⟩], false⟩], fwdTrue, 1, 1⟩

/-- A database whose channel "a" has been deactivated (is_active 0,
added at time 5), as `utils.py remove_channel` leaves it. -/
def dbC10 : DB := ⟨[], [⟨1, "a", 3, false, 5⟩], [], 1, 2, 1⟩

/-- A database with two registered channels, for the frame witness. -/
def dbW : DB := ⟨[], [⟨1, "a", 3, true, 5⟩, ⟨2, "b", 4, true, 6⟩], [], 1, 3, 1⟩

/-- The newer message prepended to the history in the C3 witness. -/
def msg110 : Message := ⟨110, some 9, some "yo"⟩

/-! ### Generic list helpers -/

/-- Filtering away only elements that fail `p` does not change `any p`. -/
theorem any_filter_eq {α : Type} (l : List α) (p q : α → Bool)
    (h : ∀ x ∈ l, p x = true → q x = true) :
    (l.filter q).any p = l.any p := by
  induction l with
  | nil => rfl
  | cons a l ih =>
    have ih' := ih (fun x hx => h x (List.mem_cons_of_mem _ hx))
    by_cases hq : q a = true
    · rw [List.filter_cons_of_pos hq, List.any_cons, List.any_cons, ih']
    · have hp : p a = false := by
        cases hpa : p a
        · rfl
        · exact absurd (h a (List.mem_cons_self _ _) hpa) hq
      rw [List.filter_cons_of_neg hq, List.any_cons, hp, Bool.false_or, ih']

/-- Filtering away only elements that fail `p` does not change `find? p`. -/
theorem find?_filter_eq {α : Type} (l : List α) (p q : α → Bool)
    (h : ∀ x ∈ l, p x = true → q x = true) :
    (l.filter q).find? p = l.find? p := by
  induction l with
  | nil => rfl
  | cons a l ih =>
    have ih' := ih (fun x hx => h x (List.mem_cons_of_mem _ hx))
    by_cases hq : q a = true
    · rw [List.filter_cons_of_pos hq]
      by_cases hp : p a = true
      · rw [List.find?_cons_of_pos _ hp, List.find?_cons_of_pos _ hp]
      · rw [List.find?_cons_of_neg _ hp, List.find?_cons_of_neg _ hp, ih']
    · have hp : ¬p a = true := fun hpa => hq (h a (List.mem_cons_self _ _) hpa)
      rw [List.filter_cons_of_neg hq, List.find?_cons_of_neg _ hp, ih']

/-! ### Dedup-store lemmas -/

/-- Characterisation of the dedup check after a record write: true for
the written key, otherwise unchanged. -/
theorem isPostProcessed_add (db : DB) (ch' : String) (mid' : Nat)
    (txt : String) (pd : Option Int) (sm : Option String) (pub : Bool)
    (now : Int) (ch : String) (mid : Nat) :
    isPostProcessed (addProcessedPost db ch' mid' txt pd sm pub now) ch mid =
      ((ch' == ch && mid' == mid) || isPostProcessed db ch mid) := by
  simp only [isPostProcessed, addProcessedPost, List.any_append, List.any_cons,
    List.any_nil, Bool.or_false]
  by_cases hk : ch' = ch ∧ mid' = mid
  · obtain ⟨rfl, rfl⟩ := hk
    simp
  · have hnew : ((⟨db.nextPostId, ch', mid', txt, pd, now, pub, sm⟩ : PostRow).channel == ch
        && (⟨db.nextPostId, ch', mid', txt, pd, now, pub, sm⟩ : PostRow).messageId == mid) = false := by
      rcases not_and_or.mp hk with hne | hne <;> simp [hne]
    have hfe : (db.posts.filter
          (fun r => !(r.channel == ch' && r.messageId == mid'))).any
          (fun r => r.channel == ch && r.messageId == mid) =
        db.posts.any (fun r => r.channel == ch && r.messageId == mid) := by
      apply any_filter_eq
      intro r _ hp
      simp only [Bool.and_eq_true, beq_iff_eq] at hp
      obtain ⟨hc, hm⟩ := hp
      simp [hc, hm]
      rcases not_and_or.mp hk with hne | hne
      · exact Or.inl (fun hx : ch = ch' => hne hx.symm)
      · exact Or.inr (fun hx : mid = mid' => hne hx.symm)
    rw [hnew, hfe]
    simp

/-- The watermark write touches only the channel_settings table. -/
theorem updateLastMessageId_posts (db : DB) (ch : String) (mid : Nat) (now : Int) :
    (updateLastMessageId db ch mid now).posts = db.posts := rfl

theorem updateLastMessageId_stats (db : DB) (ch : String) (mid : Nat) (now : Int) :
    (updateLastMessageId db ch mid now).stats = db.stats := rfl

/-- The statistics write touches only the statistics table. -/
theorem updateStatistics_posts (db : DB) (p pub f : Nat) (today : Int) :
    (updateStatistics db p pub f today).posts = db.posts := rfl

theorem updateStatistics_channels (db : DB) (p pub f : Nat) (today : Int) :
    (updateStatistics db p pub f today).channels = db.channels := rfl

/-- The record write touches only the processed_posts table. -/
theorem addProcessedPost_channels (db : DB) (ch : String) (mid : Nat)
    (txt : String) (pd : Option Int) (sm : Option String) (pub : Bool) (now : Int) :
    (addProcessedPost db ch mid txt pd sm pub now).channels = db.channels := rfl

theorem addProcessedPost_stats (db : DB) (ch : String) (mid : Nat)
    (txt : String) (pd : Option Int) (sm : Option String) (pub : Bool) (now : Int) :
    (addProcessedPost db ch mid txt pd sm pub now).stats = db.stats := rfl

/-- channel registration touches only the channel_settings table. -/
theorem addChannel_posts (db : DB) (ch : String) (now : Int) :
    (addChannel db ch now).posts = db.posts := by
  unfold addChannel; split <;> rfl

/-- Reading the watermark just after writing it returns the written id. -/
theorem getLastMessageId_update_self (db : DB) (ch : String) (mid : Nat) (now : Int) :
    getLastMessageId (updateLastMessageId db ch mid now) ch = mid := by
  unfold getLastMessageId updateLastMessageId
  have h1 : (db.channels.filter (fun r => !(r.channel == ch))).find?
      (fun r => r.channel == ch) = none := by
    rw [List.find?_eq_none]
    intro x hx
    have := (List.mem_filter.mp hx).2
    simp only [Bool.not_eq_true'] at this
    simp [this]
  simp only [List.find?_append, h1, Option.none_or, List.find?_cons, List.find?_nil]
  simp

/-! ### Retrieval-walk lemmas -/

/-- On a batch whose timestamps are present and strictly decreasing
(the transport contract), the walk retains exactly the messages after
the boundary with acceptable text: the early break loses nothing. -/
theorem walkNew_eq_filter (b : Int) (l : List Message)
    (hd : ∀ m ∈ l, m.date.isSome)
    (hs : l.Pairwise (fun x y => x.date.getD 0 > y.date.getD 0)) :
    walkNew b l = l.filter (candOk b) := by
  induction l with
  | nil => rfl
  | cons m rest ih =>
    obtain ⟨d, hd0⟩ := Option.isSome_iff_exists.mp (hd m (List.mem_cons_self _ _))
    rw [List.pairwise_cons] at hs
    have ih' := ih (fun x hx => hd x (List.mem_cons_of_mem _ hx)) hs.2
    by_cases hdb : d > b
    · by_cases ht : textOk m.text = true
      · have hc : candOk b m = true := by simp [candOk, hd0, hdb, ht]
        rw [walkNew, hd0]
        simp only [if_pos hdb, if_pos ht, List.filter_cons_of_pos hc, ih']
      · have hc : candOk b m = false := by
          simp [candOk, hd0, hdb]
          exact Bool.not_eq_true _ ▸ (fun hcontra => ht hcontra)
        rw [walkNew, hd0]
        simp only [if_pos hdb, if_neg ht, ih']
        rw [List.filter_cons_of_neg (by simp [hc])]
    · have hrest : rest.filter (candOk b) = [] := by
        rw [List.filter_eq_nil_iff]
        intro x hx
        obtain ⟨dx, hdx⟩ := Option.isSome_iff_exists.mp
          (hd x (List.mem_cons_of_mem _ hx))
        have hlt : x.date.getD 0 < m.date.getD 0 := hs.1 x hx
        rw [hd0, hdx] at hlt
        simp only [Option.getD_some] at hlt
        have : ¬dx > b := by omega
        simp [candOk, hdx, this]
      have hc : candOk b m = false := by simp [candOk, hd0, hdb]
      rw [walkNew, hd0]
      simp only [if_neg hdb]
      rw [List.filter_cons_of_neg (by simp [hc]), hrest]

/-- The walk never looks past a message dated at or before the
boundary: everything after it in the batch is irrelevant. -/
theorem walkNew_stopsAt (b : Int) (xs ys : List Message) (m : Message) (d : Int)
    (hm : m.date = some d) (hdb : d ≤ b) :
    walkNew b (xs ++ m :: ys) = walkNew b xs := by
  induction xs with
  | nil =>
    rw [List.nil_append]
    simp only [walkNew, hm]
    rw [if_neg (by omega)]
  | cons x xs ih =>
    rw [List.cons_append]
    cases hx : x.date with
    | none => simp only [walkNew, hx, ih]
    | some dx => simp only [walkNew, hx, ih]

/-! ### Maximum-id lemmas -/

/-- Unfolding the fold underlying `maxIdOf` one step. -/
theorem foldl_max_acc (l : List Message) (a : Nat) :
    l.foldl (fun x m => max x m.id) a = max a (maxIdOf l) := by
  induction l generalizing a with
  | nil => simp [maxIdOf]
  | cons m rest ih =>
    have h2 : maxIdOf (m :: rest) = max m.id (maxIdOf rest) := by
      rw [maxIdOf, List.foldl_cons]
      simp only [ih]
      simp
    simp only [List.foldl_cons, ih, h2]
    rw [Nat.max_assoc]

/-- Every candidate id is bounded by the computed maximum. -/
theorem le_maxIdOf (l : List Message) (m : Message) (hm : m ∈ l) :
    m.id ≤ maxIdOf l := by
  induction l with
  | nil => cases hm
  | cons x rest ih =>
    rw [maxIdOf, List.foldl_cons, foldl_max_acc]
    rcases List.mem_cons.mp hm with rfl | hmem
    · omega
    · have := ih hmem
      omega

/-- The computed maximum is bounded by any bound on the ids. -/
theorem maxIdOf_le (l : List Message) (M : Nat) (h : ∀ m ∈ l, m.id ≤ M) :
    maxIdOf l ≤ M := by
  induction l with
  | nil => simp [maxIdOf]
  | cons x rest ih =>
    rw [maxIdOf, List.foldl_cons, foldl_max_acc]
    have h1 := h x (List.mem_cons_self _ _)
    have h2 := ih (fun m hm => h m (List.mem_cons_of_mem _ hm))
    omega

/-! ### Forward-loop invariants -/

/-- The forwarding loop never changes the run boundary. -/
theorem forwardLoop_startTime (fwd : String → Nat → Bool) (now : Int)
    (ch : String) (msgs : List Message) (st : ClientState) :
    (forwardLoop fwd now ch msgs st).state.startTime = st.startTime := by
  induction msgs generalizing st with
  | nil => rfl
  | cons m rest ih =>
    rw [forwardLoop]
    split
    · exact ih st
    · split
      · exact ih _
      · exact ih st

/-- The forwarding loop never touches the channel_settings table. -/
theorem forwardLoop_channels (fwd : String → Nat → Bool) (now : Int)
    (ch : String) (msgs : List Message) (st : ClientState) :
    (forwardLoop fwd now ch msgs st).state.db.channels = st.db.channels := by
  induction msgs generalizing st with
  | nil => rfl
  | cons m rest ih =>
    rw [forwardLoop]
    split
    · exact ih st
    · split
      · rw [ih]
        rfl
      · exact ih st

/-- The forwarding loop never touches the statistics table. -/
theorem forwardLoop_statsTable (fwd : String → Nat → Bool) (now : Int)
    (ch : String) (msgs : List Message) (st : ClientState) :
    (forwardLoop fwd now ch msgs st).state.db.stats = st.db.stats := by
  induction msgs generalizing st with
  | nil => rfl
  | cons m rest ih =>
    rw [forwardLoop]
    split
    · exact ih st
    · split
      · rw [ih]
        rfl
      · exact ih st

/-- Both in-memory `self.stats` counters advance by exactly the number
of successful forwards. -/
theorem forwardLoop_stats (fwd : String → Nat → Bool) (now : Int)
    (ch : String) (msgs : List Message) (st : ClientState) :
    (forwardLoop fwd now ch msgs st).state.statsProcessed =
      st.statsProcessed + (forwardLoop fwd now ch msgs st).fwdCount ∧
    (forwardLoop fwd now ch msgs st).state.statsForwarded =
      st.statsForwarded + (forwardLoop fwd now ch msgs st).fwdCount := by
  induction msgs generalizing st with
  | nil => exact ⟨rfl, rfl⟩
  | cons m rest ih =>
    rw [forwardLoop]
    split
    · exact ih st
    · split
      · obtain ⟨h1, h2⟩ := ih ({ st with
          db := addProcessedPost st.db ch m.id (textOrMedia m.text) m.date
            (some "Переслано") true now,
          statsProcessed := st.statsProcessed + 1,
          statsForwarded := st.statsForwarded + 1 })
        constructor
        · simp only [h1]; omega
        · simp only [h2]; omega
      · exact ih st

/-- A recorded pair stays recorded through the forwarding loop, and
the loop never invokes forward_message on it. -/
theorem forwardLoop_dedup (fwd : String → Nat → Bool) (now : Int)
    (ch : String) (msgs : List Message) (st : ClientState)
    (ch0 : String) (mid : Nat) (h : isPostProcessed st.db ch0 mid = true) :
    isPostProcessed (forwardLoop fwd now ch msgs st).state.db ch0 mid = true ∧
    (ch0, mid) ∉ (forwardLoop fwd now ch msgs st).attempts := by
  induction msgs generalizing st with
  | nil => exact ⟨h, List.not_mem_nil _⟩
  | cons m rest ih =>
    rw [forwardLoop]
    split
    · exact ih st h
    · rename_i hskip
      split
      · have h1 : isPostProcessed
            (addProcessedPost st.db ch m.id (textOrMedia m.text) m.date
              (some "Переслано") true now) ch0 mid = true := by
          rw [isPostProcessed_add]
          simp [h]
        obtain ⟨ha, hb⟩ := ih ({ st with
          db := addProcessedPost st.db ch m.id (textOrMedia m.text) m.date
            (some "Переслано") true now,
          statsProcessed := st.statsProcessed + 1,
          statsForwarded := st.statsForwarded + 1 }) h1
        refine ⟨ha, ?_⟩
        intro hmem
        rcases List.mem_cons.mp hmem with heq | hmem2
        · have hc1 : ch0 = ch := congrArg Prod.fst heq
          have hc2 : mid = m.id := congrArg Prod.snd heq
          subst hc1; subst hc2
          exact hskip h
        · exact hb hmem2
      · obtain ⟨ha, hb⟩ := ih st h
        refine ⟨ha, ?_⟩
        intro hmem
        rcases List.mem_cons.mp hmem with heq | hmem2
        · have hc1 : ch0 = ch := congrArg Prod.fst heq
          have hc2 : mid = m.id := congrArg Prod.snd heq
          subst hc1; subst hc2
          exact hskip h
        · exact hb hmem2

/-- If the transport refuses every forward of a pair, the loop never
records it: it stays eligible for retry. -/
theorem forwardLoop_no_record (fwd : String → Nat → Bool) (now : Int)
    (ch : String) (msgs : List Message) (st : ClientState)
    (ch0 : String) (mid : Nat) (hf : fwd ch0 mid = false)
    (h : isPostProcessed st.db ch0 mid = false) :
    isPostProcessed (forwardLoop fwd now ch msgs st).state.db ch0 mid = false := by
  induction msgs generalizing st with
  | nil => exact h
  | cons m rest ih =>
    rw [forwardLoop]
    split
    · exact ih st h
    · split
      · rename_i hok
        apply ih
        rw [isPostProcessed_add]
        have hkey : (ch == ch0 && m.id == mid) = false := by
          by_cases hc : ch = ch0
          · subst hc
            by_cases hm : m.id = mid
            · subst hm
              rw [hok] at hf
              cases hf
            · simp [hm]
          · simp [hc]
        rw [hkey, Bool.false_or]
        exact h
      · exact ih st h

/-- The forwarding loop emits only 1-second forward pauses, never the
inter-channel pause. -/
theorem forwardLoop_events_pauseCount (fwd : String → Nat → Bool) (now : Int)
    (ch : String) (msgs : List Message) (st : ClientState) :
    (forwardLoop fwd now ch msgs st).events.countP isChannelPause = 0 := by
  induction msgs generalizing st with
  | nil => rfl
  | cons m rest ih =>
    rw [forwardLoop]
    split
    · exact ih st
    · split
      · rw [List.countP_cons]
        simp [isChannelPause, ih]
      · exact ih st

/-- The watermark write does not affect the dedup table. -/
theorem isPostProcessed_updateLastMessageId (db : DB) (ch' : String)
    (mid' : Nat) (now : Int) (ch : String) (mid : Nat) :
    isPostProcessed (updateLastMessageId db ch' mid' now) ch mid =
      isPostProcessed db ch mid := rfl

/-- The statistics write does not affect the dedup table. -/
theorem isPostProcessed_updateStatistics (db : DB) (p pub f : Nat)
    (today : Int) (ch : String) (mid : Nat) :
    isPostProcessed (updateStatistics db p pub f today) ch mid =
      isPostProcessed db ch mid := rfl

/-! ### Per-channel slot lemmas -/

/-- One channel slot never changes the run boundary. -/
theorem processOneChannel_startTime (fwd : String → Nat → Bool) (now : Int)
    (st : ClientState) (w : ChWork) :
    (processOneChannel fwd now st w).state.startTime = st.startTime := by
  simp only [processOneChannel]
  split
  · rfl
  · split
    · rfl
    · rw [forwardLoop_startTime]

/-- One channel slot preserves a recorded pair and never invokes
forward_message on it. -/
theorem processOneChannel_dedup (fwd : String → Nat → Bool) (now : Int)
    (st : ClientState) (w : ChWork) (ch0 : String) (mid : Nat)
    (h : isPostProcessed st.db ch0 mid = true) :
    isPostProcessed (processOneChannel fwd now st w).state.db ch0 mid = true ∧
    (ch0, mid) ∉ (processOneChannel fwd now st w).attempts := by
  simp only [processOneChannel]
  split
  · exact ⟨h, List.not_mem_nil _⟩
  · split
    · exact ⟨h, List.not_mem_nil _⟩
    · exact forwardLoop_dedup fwd now w.name _ _ ch0 mid h

/-- One channel slot cannot record a pair whose forwards all fail. -/
theorem processOneChannel_no_record (fwd : String → Nat → Bool) (now : Int)
    (st : ClientState) (w : ChWork) (ch0 : String) (mid : Nat)
    (hf : fwd ch0 mid = false) (h : isPostProcessed st.db ch0 mid = false) :
    isPostProcessed (processOneChannel fwd now st w).state.db ch0 mid = false := by
  simp only [processOneChannel]
  split
  · exact h
  · split
    · exact h
    · exact forwardLoop_no_record fwd now w.name _ _ ch0 mid hf h

/-- The in-memory stats counters advance by exactly the slot's
forwarded count. -/
theorem processOneChannel_stats (fwd : String → Nat → Bool) (now : Int)
    (st : ClientState) (w : ChWork) :
    (processOneChannel fwd now st w).state.statsProcessed =
      st.statsProcessed + (processOneChannel fwd now st w).forwarded ∧
    (processOneChannel fwd now st w).state.statsForwarded =
      st.statsForwarded + (processOneChannel fwd now st w).forwarded := by
  simp only [processOneChannel]
  split
  · exact ⟨rfl, rfl⟩
  · split
    · exact ⟨rfl, rfl⟩
    · exact forwardLoop_stats fwd now w.name _ _

/-- A crashed channel slot contributes nothing at all. -/
theorem processOneChannel_crash (fwd : String → Nat → Bool) (now : Int)
    (st : ClientState) (n : String) (f : FetchResult) :
    processOneChannel fwd now st ⟨n, f, true⟩ = ⟨st, 0, 0, [], []⟩ := rfl

/-- The retrieval itself never emits the inter-channel pause. -/
theorem getChannelMessages_pauseCount (startTime : Option Int) (f : FetchResult) :
    (getChannelMessages startTime f).2.countP isChannelPause = 0 := by
  unfold getChannelMessages
  cases startTime with
  | none => rfl
  | some b => cases f <;> rfl

/-- One channel slot emits the 2-second inter-channel pause exactly
when it did not crash and its candidate batch was non-empty. -/
theorem processOneChannel_pauseCount (fwd : String → Nat → Bool) (now : Int)
    (st : ClientState) (w : ChWork) :
    (processOneChannel fwd now st w).events.countP isChannelPause =
      (if !w.crash && !(getChannelMessages st.startTime w.fetch).1.isEmpty
       then 1 else 0) := by
  simp only [processOneChannel]
  split
  · rename_i hc
    rw [hc]
    rfl
  · rename_i hc
    rw [Bool.not_eq_true] at hc
    split
    · rename_i hemp
      rw [hc, hemp]
      simp [getChannelMessages_pauseCount]
    · rename_i hemp
      rw [Bool.not_eq_true] at hemp
      rw [hc, hemp]
      simp only [List.countP_append, getChannelMessages_pauseCount,
        forwardLoop_events_pauseCount, List.countP_cons, List.countP_nil]
      simp [isChannelPause]

/-! ### Pass-level lemmas -/

/-- The channel loop never changes the run boundary. -/
theorem passLoop_startTime (fwd : String → Nat → Bool) (now : Int)
    (chans : List ChWork) (st : ClientState) :
    (passLoop fwd now chans st).state.startTime = st.startTime := by
  induction chans generalizing st with
  | nil => rfl
  | cons w ws ih =>
    rw [passLoop]
    rw [ih, processOneChannel_startTime]

/-- The channel loop preserves a recorded pair and never invokes
forward_message on it. -/
theorem passLoop_dedup (fwd : String → Nat → Bool) (now : Int)
    (chans : List ChWork) (st : ClientState) (ch0 : String) (mid : Nat)
    (h : isPostProcessed st.db ch0 mid = true) :
    isPostProcessed (passLoop fwd now chans st).state.db ch0 mid = true ∧
    (ch0, mid) ∉ (passLoop fwd now chans st).attempts := by
  induction chans generalizing st with
  | nil => exact ⟨h, List.not_mem_nil _⟩
  | cons w ws ih =>
    rw [passLoop]
    obtain ⟨h1, h2⟩ := processOneChannel_dedup fwd now st w ch0 mid h
    obtain ⟨h3, h4⟩ := ih _ h1
    refine ⟨h3, ?_⟩
    intro hmem
    rcases List.mem_append.mp hmem with hx | hx
    · exact h2 hx
    · exact h4 hx

/-- The channel loop cannot record a pair whose forwards all fail. -/
theorem passLoop_no_record (fwd : String → Nat → Bool) (now : Int)
    (chans : List ChWork) (st : ClientState) (ch0 : String) (mid : Nat)
    (hf : fwd ch0 mid = false) (h : isPostProcessed st.db ch0 mid = false) :
    isPostProcessed (passLoop fwd now chans st).state.db ch0 mid = false := by
  induction chans generalizing st with
  | nil => exact h
  | cons w ws ih =>
    rw [passLoop]
    exact ih _ (processOneChannel_no_record fwd now st w ch0 mid hf h)

/-- Over the whole channel loop, both stats counters advance by the
total number of successful forwards. -/
theorem passLoop_stats (fwd : String → Nat → Bool) (now : Int)
    (chans : List ChWork) (st : ClientState) :
    (passLoop fwd now chans st).state.statsProcessed =
      st.statsProcessed + (passLoop fwd now chans st).forwarded ∧
    (passLoop fwd now chans st).state.statsForwarded =
      st.statsForwarded + (passLoop fwd now chans st).forwarded := by
  induction chans generalizing st with
  | nil => exact ⟨Nat.add_zero _ |>.symm, Nat.add_zero _ |>.symm⟩
  | cons w ws ih =>
    rw [passLoop]
    obtain ⟨h1, h2⟩ := processOneChannel_stats fwd now st w
    obtain ⟨h3, h4⟩ := ih (processOneChannel fwd now st w).state
    constructor
    · simp only [h3, h1]
      omega
    · simp only [h4, h2]
      omega

/-- The returned `processed` count is the total number of candidates
retrieved across the channels of the pass. -/
theorem passLoop_processed (fwd : String → Nat → Bool) (now : Int)
    (chans : List ChWork) (st : ClientState) :
    (passLoop fwd now chans st).processed =
      (chans.map (fun w => if w.crash then 0
        else (getChannelMessages st.startTime w.fetch).1.length)).sum := by
  induction chans generalizing st with
  | nil => rfl
  | cons w ws ih =>
    rw [passLoop, List.map_cons, List.sum_cons]
    rw [ih, processOneChannel_startTime]
    simp only [processOneChannel]
    split
    · rfl
    · split
      · rename_i hemp
        rw [List.isEmpty_iff] at hemp
        rw [hemp]
        rfl
      · rfl

/-- The pass emits the 2-second inter-channel pause exactly once per
channel that did not crash and had a non-empty candidate batch. -/
theorem passLoop_pauseCount (fwd : String → Nat → Bool) (now : Int)
    (chans : List ChWork) (st : ClientState) :
    (passLoop fwd now chans st).events.countP isChannelPause =
      (chans.filter (fun w => !w.crash &&
        !(getChannelMessages st.startTime w.fetch).1.isEmpty)).length := by
  induction chans generalizing st with
  | nil => rfl
  | cons w ws ih =>
    rw [passLoop, List.countP_append]
    rw [ih, processOneChannel_startTime, processOneChannel_pauseCount]
    by_cases hw : (!w.crash && !(getChannelMessages st.startTime w.fetch).1.isEmpty) = true
    · rw [if_pos hw]
      simp only [List.filter_cons, hw, if_true, List.length_cons]
      omega
    · rw [if_neg hw]
      rw [Bool.not_eq_true] at hw
      simp only [List.filter_cons, hw]
      simp

/-- A crashed channel's slot is skipped without touching anything: the
rest of the pass proceeds as if the channel were absent. -/
theorem passLoop_crash_skip (fwd : String → Nat → Bool) (now : Int)
    (n : String) (f : FetchResult) (ws : List ChWork) (st : ClientState) :
    passLoop fwd now (⟨n, f, true⟩ :: ws) st = passLoop fwd now ws st := by
  rw [passLoop, processOneChannel_crash]
  rcases hq : passLoop fwd now ws st with ⟨s, p, fo, ev, att⟩
  simp

/-- A full pass preserves a recorded pair and never invokes
forward_message on it. -/
theorem processAllChannels_dedup (fwd : String → Nat → Bool) (now today : Int)
    (chans : List ChWork) (st : ClientState) (ch0 : String) (mid : Nat)
    (h : isPostProcessed st.db ch0 mid = true) :
    isPostProcessed (processAllChannels fwd now today chans st).state.db ch0 mid = true ∧
    (ch0, mid) ∉ (processAllChannels fwd now today chans st).attempts := by
  obtain ⟨h1, h2⟩ := passLoop_dedup fwd now chans st ch0 mid h
  exact ⟨by simpa [processAllChannels, isPostProcessed_updateStatistics] using h1, h2⟩

/-- A full pass cannot record a pair whose forwards all fail. -/
theorem processAllChannels_no_record (fwd : String → Nat → Bool) (now today : Int)
    (chans : List ChWork) (st : ClientState) (ch0 : String) (mid : Nat)
    (hf : fwd ch0 mid = false) (h : isPostProcessed st.db ch0 mid = false) :
    isPostProcessed (processAllChannels fwd now today chans st).state.db ch0 mid = false := by
  have h1 := passLoop_no_record fwd now chans st ch0 mid hf h
  simpa [processAllChannels, isPostProcessed_updateStatistics] using h1

/-- Any number of later passes preserves a recorded pair and never
invokes forward_message on it again. -/
theorem runPasses_dedup (ps : List PassIn) (st : ClientState)
    (ch0 : String) (mid : Nat) (h : isPostProcessed st.db ch0 mid = true) :
    isPostProcessed (runPasses ps st).1.db ch0 mid = true ∧
    (ch0, mid) ∉ (runPasses ps st).2 := by
  induction ps generalizing st with
  | nil => exact ⟨h, List.not_mem_nil _⟩
  | cons p ps ih =>
    rw [runPasses]
    obtain ⟨h1, h2⟩ := processAllChannels_dedup p.fwd p.now p.today p.chans st ch0 mid h
    obtain ⟨h3, h4⟩ := ih _ h1
    refine ⟨h3, ?_⟩
    intro hmem
    rcases List.mem_append.mp hmem with hx | hx
    · exact h2 hx
    · exact h4 hx

/-- Claim C1: at-most-once forwarding — once a processed record has
been written (add_processed_post) the dedup check (is_post_processed)
returns true, and no later pass invokes forward_messages on that
(channel, message id) pair again, across any sequence of
process_all_channels invocations with arbitrary (overlapping)
candidate batches. -/
theorem at_most_once_forwarding (db : DB) (ch : String) (mid : Nat)
    (txt : String) (pd : Option Int) (sm : Option String) (pub : Bool)
    (now : Int) (st : ClientState) (ps : List PassIn)
    (h : isPostProcessed st.db ch mid = true) :
    isPostProcessed (addProcessedPost db ch mid txt pd sm pub now) ch mid = true ∧
    (ch, mid) ∉ (runPasses ps st).2 ∧
    isPostProcessed (runPasses ps st).1.db ch mid = true := by
  refine ⟨?_, ?_, ?_⟩
  · rw [isPostProcessed_add]
    simp
  · exact (runPasses_dedup ps st ch mid h).2
  · exact (runPasses_dedup ps st ch mid h).1

/-- Witness for C1 at a concrete recorded pair and a later pass that
delivers the same message again. -/
theorem at_most_once_forwarding_witness :
    isPostProcessed (addProcessedPost emptyDB "a" 5 "x" none none true 0) "a" 5 = true ∧
    ("a", 5) ∉ (runPasses [passA] stRec).2 ∧
    isPostProcessed (runPasses [passA] stRec).1.db "a" 5 = true :=
  at_most_once_forwarding emptyDB "a" 5 "x" none none true 0 stRec [passA] (by decide)

/-- Claim C2: candidate filtering — on a batch delivered newest-first
(timestamps present and strictly decreasing), the retained candidates
are exactly the messages dated strictly after the boundary whose text
is non-empty and does not begin with '/'; the walk stops at the first
message at or before the boundary; and on the concrete §8 batch at
boundary 0 the candidate set is exactly [id 105]. -/
theorem candidate_filtering (b : Int) (batch : List Message)
    (hd : ∀ m ∈ batch, m.date.isSome)
    (hs : batch.Pairwise (fun x y => x.date.getD 0 > y.date.getD 0)) :
    (getChannelMessages (some b) (FetchResult.ok batch)).1 = batch.filter (candOk b) ∧
    (∀ (xs ys : List Message) (m : Message) (d : Int),
      m.date = some d → d ≤ b → walkNew b (xs ++ m :: ys) = walkNew b xs) ∧
    getChannelMessages (some 0) (FetchResult.ok exampleBatch) =
      ([⟨105, some 5, some "hi"⟩], []) := by
  refine ⟨?_, ?_, by decide⟩
  · simpa [getChannelMessages] using walkNew_eq_filter b batch hd hs
  · intro xs ys m d hm hdb
    exact walkNew_stopsAt b xs ys m d hm hdb

/-- Witness for C2 at the concrete §8 batch. -/
theorem candidate_filtering_witness :
    (getChannelMessages (some 0) (FetchResult.ok exampleBatch)).1 =
      exampleBatch.filter (candOk 0) ∧
    (∀ (xs ys : List Message) (m : Message) (d : Int),
      m.date = some d → d ≤ 0 → walkNew 0 (xs ++ m :: ys) = walkNew 0 xs) ∧
    getChannelMessages (some 0) (FetchResult.ok exampleBatch) =
      ([⟨105, some 5, some "hi"⟩], []) :=
  candidate_filtering 0 exampleBatch (by decide) (by decide)

/-- Claim C5 (code-bug evidence): the statistics table is keyed only by
the autoincrement id — `date` carries no unique constraint — so the
INSERT OR REPLACE upsert of update_statistics never replaces: two
same-day writes leave two rows for that date, the second holding the
first row's counts plus its own increments, instead of one cumulative
row. -/
theorem daily_stats_duplicate_rows :
    ((updateStatistics (updateStatistics emptyDB 1 1 0 7) 2 2 0 7).stats.filter
        (fun r => r.statDate == 7)).length = 2 ∧
    (updateStatistics (updateStatistics emptyDB 1 1 0 7) 2 2 0 7).stats =
      [⟨1, 7, 1, 1, 0⟩, ⟨2, 7, 3, 3, 0⟩] := by
  decide

/-- Claim C6 counterexample: a pass over two channels that both yield
zero candidates sleeps not at all — the `continue` at line 152 skips
the 2-second inter-channel pause, contrary to the claim that the delay
is inserted between consecutive channels regardless of outcome. -/
theorem inter_channel_pause_cex :
    (processAllChannels fwdTrue 0 0
        [⟨"a", FetchResult.ok [], false⟩, ⟨"b", FetchResult.ok [], false⟩]
        st0).events = [] := by
  decide

/-- Claim C6 (amended): the 2-second inter-channel pause occurs exactly
once per channel whose processing did not raise and whose candidate
batch was non-empty; channels with zero candidates (including
rate-limited or failed retrievals) and crashed channels are skipped
without the pause. -/
theorem inter_channel_pause_count (fwd : String → Nat → Bool) (now today : Int)
    (chans : List ChWork) (st : ClientState) :
    (processAllChannels fwd now today chans st).events.countP isChannelPause =
      (chans.filter (fun w => !w.crash &&
        !(getChannelMessages st.startTime w.fetch).1.isEmpty)).length := by
  have h := passLoop_pauseCount fwd now chans st
  simpa [processAllChannels] using h

/-- Claim C7: a FloodWaitError during retrieval for a channel makes the
pass sleep exactly the signalled seconds, contribute nothing for that
channel (no forwards, no candidates, no state change), and process the
remaining channels exactly as it would have without that channel. -/
theorem flood_wait_skips_channel (st : ClientState) (t : Int)
    (fwd : String → Nat → Bool) (now today : Int) (b : String) (s : Nat)
    (rest : List ChWork) :
    processAllChannels fwd now today (⟨b, FetchResult.floodWait s, false⟩ :: rest)
      { st with startTime := some t } =
    { processAllChannels fwd now today rest { st with startTime := some t } with
      events := Event.floodSleep s ::
        (processAllChannels fwd now today rest { st with startTime := some t }).events } := by
  rw [processAllChannels, passLoop]
  have h1 : processOneChannel fwd now { st with startTime := some t }
      ⟨b, FetchResult.floodWait s, false⟩ =
      ⟨{ st with startTime := some t }, 0, 0, [Event.floodSleep s], []⟩ := rfl
  rw [h1, processAllChannels]
  rcases hq : passLoop fwd now rest { st with startTime := some t } with ⟨s1, p, f, ev, att⟩
  simp

/-- Claim C8: the run boundary is established at most once per process
— re-running initialization (for example after a liveness-check
reconnect) leaves an established boundary unchanged, whether or not
authorization succeeds — and with no boundary established every
retrieval returns the empty list without fetching. -/
theorem run_boundary_stability (st : ClientState) (now t : Int) (authOk : Bool)
    (srcChannels : List String) (fetch : FetchResult) :
    ((initClient { st with startTime := some t } now authOk srcChannels).1).startTime
      = some t ∧
    getChannelMessages none fetch = ([], []) := by
  constructor
  · unfold initClient
    split
    · rfl
    · rfl
  · rfl

/-- Claim C9 counterexample: a pass with one candidate whose forward
fails returns {processed 1, forwarded 0}, yet the daily-counter write
records processed 0 — update_statistics receives self.stats, which
count only successful forwards, not the returned candidate total. -/
theorem pass_accounting_cex :
    (processAllChannels fwdFalse 5 7
        [⟨"a", FetchResult.ok [⟨9, some 1, some "hi"⟩], false⟩] st0).processed = 1 ∧
    (processAllChannels fwdFalse 5 7
        [⟨"a", FetchResult.ok [⟨9, some 1, some "hi"⟩], false⟩] st0).forwarded = 0 ∧
    ((processAllChannels fwdFalse 5 7
        [⟨"a", FetchResult.ok [⟨9, some 1, some "hi"⟩], false⟩] st0).state.db.stats.map
      (fun r => (r.statDate, r.postsProcessed, r.postsPublished, r.postsFiltered)))
      = [(7, 0, 0, 0)] := by
  decide

/-- Claim C9 (amended): the returned totals are {processed: total
candidates retrieved, forwarded: total newly forwarded}, but the
daily-counter write adds (forwarded, forwarded, 0) — the in-memory
stats counters are incremented only on successful forwards, so the
written processed count equals the forwarded count, not the candidate
total. -/
theorem pass_accounting (fwd : String → Nat → Bool) (now today : Int)
    (chans : List ChWork) (st : ClientState) :
    (processAllChannels fwd now today chans
        { st with statsProcessed := 0, statsForwarded := 0 }).processed =
      (chans.map (fun w => if w.crash then 0
        else (getChannelMessages st.startTime w.fetch).1.length)).sum ∧
    (processAllChannels fwd now today chans
        { st with statsProcessed := 0, statsForwarded := 0 }).state.db =
      updateStatistics
        (passLoop fwd now chans
          { st with statsProcessed := 0, statsForwarded := 0 }).state.db
        (processAllChannels fwd now today chans
          { st with statsProcessed := 0, statsForwarded := 0 }).forwarded
        (processAllChannels fwd now today chans
          { st with statsProcessed := 0, statsForwarded := 0 }).forwarded
        0 today := by
  constructor
  · have h := passLoop_processed fwd now chans
      { st with statsProcessed := 0, statsForwarded := 0 }
    simpa [processAllChannels] using h
  · obtain ⟨h1, h2⟩ := passLoop_stats fwd now chans
      { st with statsProcessed := 0, statsForwarded := 0 }
    simp only [processAllChannels]
    rw [h1, h2]
    simp

/-- Claim C10 counterexample: updating the watermark of a deactivated
channel silently reactivates it and refreshes its registration
timestamp — INSERT OR REPLACE replaces the whole row, resetting the
unsupplied columns to their defaults — contrary to the claim that the
active flag and registration timestamp remain unchanged. -/
theorem watermark_frame_cex :
    (dbC10.channels.find? (fun r => r.channel == "a")).map
      (fun r => (r.isActive, r.addedDate)) = some (false, 5) ∧
    ((updateLastMessageId dbC10 "a" 9 10).channels.find? (fun r => r.channel == "a")).map
      (fun r => (r.isActive, r.addedDate)) = some (true, 10) := by
  decide

/-- Claim C10 (amended): update_last_message_id leaves every other
channel's row and the other tables unchanged and sets the channel's
last-seen id, but it replaces the channel's whole row: the active flag
and registration timestamp are reset to the column defaults (TRUE and
the current timestamp) rather than preserved. -/
theorem watermark_update_frame (db : DB) (ch : String) (mid : Nat) (now : Int) :
    (∀ ch', ch' ≠ ch →
      (updateLastMessageId db ch mid now).channels.find? (fun r => r.channel == ch') =
        db.channels.find? (fun r => r.channel == ch')) ∧
    (∃ r : ChannelRow,
      (updateLastMessageId db ch mid now).channels.find? (fun r => r.channel == ch) =
        some r ∧
      r.lastMessageId = mid ∧ r.isActive = true ∧ r.addedDate = now) ∧
    (updateLastMessageId db ch mid now).posts = db.posts ∧
    (updateLastMessageId db ch mid now).stats = db.stats := by
  refine ⟨?_, ?_, rfl, rfl⟩
  · intro ch' hne
    unfold updateLastMessageId
    simp only [List.find?_append]
    have h2 : List.find? (fun r => r.channel == ch')
        [(⟨db.nextChannelId, ch, mid, true, now⟩ : ChannelRow)] = none := by
      rw [List.find?_eq_none]
      intro x hx
      rcases List.mem_singleton.mp hx with rfl
      simp only [beq_iff_eq]
      exact fun h => hne (Eq.symm h)
    rw [h2]
    have h3 : (db.channels.filter (fun r => !(r.channel == ch))).find?
        (fun r => r.channel == ch') = db.channels.find? (fun r => r.channel == ch') := by
      apply find?_filter_eq
      intro x _ hp
      simp only [beq_iff_eq] at hp
      rw [hp]
      simp only [Bool.not_eq_true', beq_eq_false_iff_ne, ne_eq]
      exact hne
    rw [h3, Option.or_none]
  · refine ⟨⟨db.nextChannelId, ch, mid, true, now⟩, ?_, rfl, rfl, rfl⟩
    unfold updateLastMessageId
    have h1 : (db.channels.filter (fun r => !(r.channel == ch))).find?
        (fun r => r.channel == ch) = none := by
      rw [List.find?_eq_none]
      intro x hx
      have := (List.mem_filter.mp hx).2
      simp only [Bool.not_eq_true'] at this
      simp [this]
    simp only [List.find?_append, h1, Option.none_or, List.find?_cons, List.find?_nil]
    simp

/-- Witness for C10 (amended) at a concrete two-channel database:
updating "b" leaves "a"'s row untouched and rewrites "b"'s row with
defaults. -/
theorem watermark_update_frame_witness :
    ((updateLastMessageId dbW "b" 9 10).channels.find? (fun r => r.channel == "a") =
      dbW.channels.find? (fun r => r.channel == "a")) ∧
    (∃ r : ChannelRow,
      (updateLastMessageId dbW "b" 9 10).channels.find? (fun r => r.channel == "b") =
        some r ∧
      r.lastMessageId = 9 ∧ r.isActive = true ∧ r.addedDate = 10) ∧
    (updateLastMessageId dbW "b" 9 10).posts = dbW.posts ∧
    (updateLastMessageId dbW "b" 9 10).stats = dbW.stats :=
  ⟨(watermark_update_frame dbW "b" 9 10).1 "a" (by decide),
   (watermark_update_frame dbW "b" 9 10).2.1,
   (watermark_update_frame dbW "b" 9 10).2.2.1,
   (watermark_update_frame dbW "b" 9 10).2.2.2⟩

/-- A crashed channel anywhere in the pass is skipped: the pass equals
the pass over the channel list with that channel removed. -/
theorem passLoop_crash_middle (fwd : String → Nat → Bool) (now : Int)
    (pre post : List ChWork) (n : String) (f : FetchResult) (st : ClientState) :
    passLoop fwd now (pre ++ ⟨n, f, true⟩ :: post) st =
      passLoop fwd now (pre ++ post) st := by
  induction pre generalizing st with
  | nil =>
    rw [List.nil_append, List.nil_append]
    exact passLoop_crash_skip fwd now n f post st
  | cons w ws ih =>
    rw [List.cons_append, List.cons_append, passLoop, passLoop, ih]

/-- Claim C4: error isolation with retry eligibility — a failed
forward leaves no processed record (the pair stays eligible for retry:
still unrecorded at pass end) while the loop moves on to the next
candidate of the same channel, and a channel whose processing raises
is skipped without aborting the pass over the remaining channels. -/
theorem error_isolation_retry (fwd : String → Nat → Bool) (now today : Int)
    (ch : String) (m : Message) (rest : List Message) (st : ClientState)
    (chans pre post : List ChWork) (n : String) (f : FetchResult) (mid : Nat)
    (h1 : isPostProcessed st.db ch m.id = false)
    (h2 : fwd ch m.id = false)
    (h3 : fwd ch mid = false)
    (h4 : isPostProcessed st.db ch mid = false) :
    forwardLoop fwd now ch (m :: rest) st =
      ⟨(forwardLoop fwd now ch rest st).state,
       (forwardLoop fwd now ch rest st).fwdCount,
       (forwardLoop fwd now ch rest st).events,
       (ch, m.id) :: (forwardLoop fwd now ch rest st).attempts⟩ ∧
    isPostProcessed (processAllChannels fwd now today chans st).state.db ch mid
      = false ∧
    processAllChannels fwd now today (pre ++ ⟨n, f, true⟩ :: post) st =
      processAllChannels fwd now today (pre ++ post) st := by
  refine ⟨?_, ?_, ?_⟩
  · rw [forwardLoop, if_neg (by simp [h1]), if_neg (by simp [h2])]
  · exact processAllChannels_no_record fwd now today chans st ch mid h3 h4
  · rw [processAllChannels, processAllChannels, passLoop_crash_middle]

/-- Witness for C4: channel "a" has one fresh candidate whose forward
fails; a crashed channel sits between "a" and "b". -/
theorem error_isolation_retry_witness :
    forwardLoop fwdFalse 1 "a" [⟨9, some 1, some "hi"⟩] st0 =
      ⟨(forwardLoop fwdFalse 1 "a" [] st0).state,
       (forwardLoop fwdFalse 1 "a" [] st0).fwdCount,
       (forwardLoop fwdFalse 1 "a" [] st0).events,
       ("a", 9) :: (forwardLoop fwdFalse 1 "a" [] st0).attempts⟩ ∧
    isPostProcessed (processAllChannels fwdFalse 1 2
        [⟨"a", FetchResult.ok [⟨9, some 1, some "hi"⟩], false⟩] st0).state.db "a" 9
      = false ∧
    processAllChannels fwdFalse 1 2
        ([⟨"a", FetchResult.ok [⟨9, some 1, some "hi"⟩], false⟩] ++
          ⟨"k", FetchResult.err, true⟩ :: [⟨"b", FetchResult.ok [], false⟩]) st0 =
      processAllChannels fwdFalse 1 2
        ([⟨"a", FetchResult.ok [⟨9, some 1, some "hi"⟩], false⟩] ++
          [⟨"b", FetchResult.ok [], false⟩]) st0 :=
  error_isolation_retry fwdFalse 1 2 "a" ⟨9, some 1, some "hi"⟩ [] st0
    [⟨"a", FetchResult.ok [⟨9, some 1, some "hi"⟩], false⟩]
    [⟨"a", FetchResult.ok [⟨9, some 1, some "hi"⟩], false⟩]
    [⟨"b", FetchResult.ok [], false⟩] "k" FetchResult.err 9
    (by decide) (by decide) (by decide) (by decide)

/-- Core watermark-monotonicity argument: when the channel history
grows by newer messages being prepended (ids and timestamps strictly
decreasing along the delivered order), the maximum candidate id of the
later retrieval batch is at least that of the earlier one, even when
the bounded batch window truncates the overlap. -/
theorem maxIdOf_cand_mono (b : Int) (limit : Nat) (H1 N : List Message)
    (hd : ∀ m ∈ N ++ H1, m.date.isSome)
    (hsd : (N ++ H1).Pairwise (fun x y => x.date.getD 0 > y.date.getD 0))
    (hsi : (N ++ H1).Pairwise (fun x y => x.id > y.id))
    (hne2 : walkNew b ((N ++ H1).take limit) ≠ []) :
    maxIdOf (walkNew b (H1.take limit)) ≤
      maxIdOf (walkNew b ((N ++ H1).take limit)) := by
  have hsub1 : (H1.take limit).Sublist (N ++ H1) :=
    (List.take_sublist limit H1).trans (List.sublist_append_right N H1)
  have hsub2 : ((N ++ H1).take limit).Sublist (N ++ H1) :=
    List.take_sublist limit (N ++ H1)
  have hc1 : walkNew b (H1.take limit) = (H1.take limit).filter (candOk b) :=
    walkNew_eq_filter b _ (fun m hm => hd m (hsub1.subset hm))
      (hsd.sublist hsub1)
  have hc2 : walkNew b ((N ++ H1).take limit) =
      ((N ++ H1).take limit).filter (candOk b) :=
    walkNew_eq_filter b _ (fun m hm => hd m (hsub2.subset hm))
      (hsd.sublist hsub2)
  have htake : (N ++ H1).take limit = N.take limit ++ H1.take (limit - N.length) :=
    List.take_append_eq_append_take
  set k := limit - N.length with hk
  have hidsN : ∀ a ∈ N, ∀ x ∈ H1, x.id < a.id := by
    intro a ha x hx
    exact (List.pairwise_append.mp hsi).2.2 a ha x hx
  have hpairH1 : H1.Pairwise (fun x y => x.id > y.id) :=
    (List.pairwise_append.mp hsi).2.1
  have hsplitH1 : ∀ y ∈ H1.take k, ∀ x ∈ H1.drop k, x.id < y.id := by
    have h := List.take_append_drop k H1
    have h2 : (H1.take k ++ H1.drop k).Pairwise (fun x y => x.id > y.id) := by
      rw [h]; exact hpairH1
    exact fun y hy x hx => (List.pairwise_append.mp h2).2.2 y hy x hx
  rw [hc1, hc2, htake, List.filter_append]
  apply maxIdOf_le
  intro x hx
  have hxt : x ∈ H1.take limit := (List.mem_filter.mp hx).1
  have hxp : candOk b x = true := (List.mem_filter.mp hx).2
  have hxH1 : x ∈ H1 := (List.take_sublist limit H1).subset hxt
  by_cases hxk : x ∈ H1.take k
  · -- x itself survives into the later batch
    have : x ∈ (N.take limit).filter (candOk b) ++ (H1.take k).filter (candOk b) :=
      List.mem_append.mpr (Or.inr (List.mem_filter.mpr ⟨hxk, hxp⟩))
    exact le_maxIdOf _ x this
  · -- x fell out of the window; any later candidate has a larger id
    have hxdrop : x ∈ H1.drop k := by
      have h := List.take_append_drop k H1
      rcases List.mem_append.mp (h ▸ hxH1) with hh | hh
      · exact absurd hh hxk
      · exact hh
    have hne2' : (N.take limit).filter (candOk b) ++ (H1.take k).filter (candOk b) ≠ [] := by
      rw [hc2, htake, List.filter_append] at hne2
      exact hne2
    obtain ⟨y, hy⟩ := List.exists_mem_of_ne_nil _ hne2'
    have hyx : x.id < y.id := by
      rcases List.mem_append.mp hy with hyN | hyH
      · have hyN2 : y ∈ N := (List.take_sublist limit N).subset (List.mem_filter.mp hyN).1
        exact hidsN y hyN2 x hxH1
      · exact hsplitH1 y (List.mem_filter.mp hyH).1 x hxdrop
    have hybound : y.id ≤ maxIdOf ((N.take limit).filter (candOk b) ++
        (H1.take k).filter (candOk b)) := le_maxIdOf _ y hy
    omega

/-- Reading a watermark depends only on the channel_settings table. -/
theorem getLastMessageId_congr (db db' : DB) (h : db.channels = db'.channels)
    (ch : String) : getLastMessageId db ch = getLastMessageId db' ch := by
  unfold getLastMessageId
  rw [h]

/-- A channel slot with a non-empty candidate walk sets the stored
watermark to the maximum candidate id. -/
theorem processOneChannel_watermark (fwd : String → Nat → Bool) (now : Int)
    (st : ClientState) (ch : String) (batch : List Message) (b : Int)
    (hst : st.startTime = some b)
    (hne : walkNew b batch ≠ []) :
    getLastMessageId
      (processOneChannel fwd now st ⟨ch, FetchResult.ok batch, false⟩).state.db ch =
      maxIdOf (walkNew b batch) := by
  simp only [processOneChannel]
  split
  · rename_i hc
    exact absurd hc (by decide)
  · have hfr : getChannelMessages st.startTime (FetchResult.ok batch) =
        (walkNew b batch, []) := by
      rw [hst]
      rfl
    rw [hfr]
    split
    · rename_i hemp
      rw [List.isEmpty_iff] at hemp
      exact absurd hemp hne
    · rw [getLastMessageId_congr _
        { st with db := updateLastMessageId st.db ch (maxIdOf (walkNew b batch)) now }.db
        (forwardLoop_channels fwd now ch _ _) ch]
      exact getLastMessageId_update_self st.db ch (maxIdOf (walkNew b batch)) now

/-- Claim C3: monotonic watermark — a pass that retrieves a non-empty
candidate set writes the maximum candidate id as the channel
watermark, and when a later pass under the same run boundary sees the
history extended by newer messages (transport contract: ids and
timestamps strictly decreasing newest-first), the newly supplied value
is at least the previous one, so get_last_message_id never regresses. -/
theorem monotonic_watermark (ch : String) (b now1 now2 : Int)
    (fwd1 fwd2 : String → Nat → Bool) (limit : Nat) (H1 N : List Message)
    (st : ClientState)
    (hd : ∀ m ∈ N ++ H1, m.date.isSome)
    (hsd : (N ++ H1).Pairwise (fun x y => x.date.getD 0 > y.date.getD 0))
    (hsi : (N ++ H1).Pairwise (fun x y => x.id > y.id))
    (hne1 : walkNew b (H1.take limit) ≠ [])
    (hne2 : walkNew b ((N ++ H1).take limit) ≠ []) :
    getLastMessageId
      (processOneChannel fwd1 now1 { st with startTime := some b }
        ⟨ch, FetchResult.ok (H1.take limit), false⟩).state.db ch =
      maxIdOf (walkNew b (H1.take limit)) ∧
    getLastMessageId
      (processOneChannel fwd2 now2
        (processOneChannel fwd1 now1 { st with startTime := some b }
          ⟨ch, FetchResult.ok (H1.take limit), false⟩).state
        ⟨ch, FetchResult.ok ((N ++ H1).take limit), false⟩).state.db ch =
      maxIdOf (walkNew b ((N ++ H1).take limit)) ∧
    maxIdOf (walkNew b (H1.take limit)) ≤
      maxIdOf (walkNew b ((N ++ H1).take limit)) := by
  refine ⟨?_, ?_, maxIdOf_cand_mono b limit H1 N hd hsd hsi hne2⟩
  · exact processOneChannel_watermark fwd1 now1 _ ch _ b rfl hne1
  · apply processOneChannel_watermark fwd2 now2 _ ch _ b _ hne2
    rw [processOneChannel_startTime]

/-- Witness for C3: history [105, 104, 103] around boundary 0 grows by
a newer message 110; the watermark goes from 105 to 110. -/
theorem monotonic_watermark_witness :
    getLastMessageId
      (processOneChannel fwdTrue 1 { st0 with startTime := some 0 }
        ⟨"a", FetchResult.ok (exampleBatch.take 50), false⟩).state.db "a" =
      maxIdOf (walkNew 0 (exampleBatch.take 50)) ∧
    getLastMessageId
      (processOneChannel fwdTrue 2
        (processOneChannel fwdTrue 1 { st0 with startTime := some 0 }
          ⟨"a", FetchResult.ok (exampleBatch.take 50), false⟩).state
        ⟨"a", FetchResult.ok (([msg110] ++ exampleBatch).take 50),
          false⟩).state.db "a" =
      maxIdOf (walkNew 0 (([msg110] ++ exampleBatch).take 50)) ∧
    maxIdOf (walkNew 0 (exampleBatch.take 50)) ≤
      maxIdOf (walkNew 0 (([msg110] ++ exampleBatch).take 50)) :=
  monotonic_watermark "a" 0 1 2 fwdTrue fwdTrue 50 exampleBatch
    [msg110] st0
    (by decide) (by decide) (by decide) (by decide) (by decide)
